import Mathlib

/-!
Verification of the twitchtool coordination layer (locks, job queue, daemon
runtime state, encoder pause/resume protocol) against a shallow embedding of
`src/twitchtool/locks.py`, `src/twitchtool/queue.py`,
`src/twitchtool/encoder_daemon.py` and `src/twitchtool/poller.py`.

Processes, pids and the filesystem are modelled explicitly: pid liveness is an
oracle `aliveEnv : Int → Bool` (the outcome of the `os.kill(pid, 0)` probe),
`flock`-style advisory locks are `Option Int` holder fields, and small JSON
records are Lean structures.  All definitions are executable.
-/

namespace Twitchtool

/-- Embedding of `utils.is_process_alive`: a pid `≤ 0` is never alive;
otherwise the OS probe `os.kill(pid, 0)` decides (a `PermissionError` counts
as alive, which the oracle `aliveEnv` already reflects). -/
def is_process_alive (aliveEnv : Int → Bool) (pid : Int) : Bool :=
  if pid ≤ 0 then false else aliveEnv pid

/-! ## GlobalSlotManager (`locks.py`)

The slots directory holds files `slot1..slotN`, each with an optional
`slotN.owner` JSON sidecar.  A slot's `flock` state is `lockHolder i`
(`some pid` when some open file description of process `pid` holds the
exclusive lock, `none` when unlocked).  The owner file is `OwnerFile`:
absent, present but unparseable (the `except` path that yields `pid = -1`),
or a parsed record. -/

/-- Content of a `slotN.owner` file, as written by `acquire_slot`
(`{"pid": .., "username": .., "started_at": ..}`). -/
structure OwnerRec where
  pid : Int
  username : String
  started_at : String
deriving Repr, DecidableEq

/-- State of a `slotN.owner` file on disk. `corrupt` covers the
`read_json`/`int(...)` failure path of `acquire_slot`, where the pid is
treated as `-1`. -/
inductive OwnerFile
  | absent
  | corrupt
  | present (r : OwnerRec)
deriving Repr, DecidableEq

/-- Shared slots-directory state: capacity (`record_limit`), per-slot owner
file and per-slot `flock` holder. -/
structure SlotFS where
  limit : Nat
  owner : Nat → OwnerFile
  lockHolder : Nat → Option Int

/-- The pid that `acquire_slot` extracts from slot `i`'s owner file before
calling `is_process_alive` (`-1` on any read/parse failure). Returns `none`
when the owner file does not exist (the `op.exists()` test). -/
def ownerFilePid : OwnerFile → Option Int
  | .absent => none
  | .corrupt => some (-1)
  | .present r => some r.pid

/-- Whether the owner-file check of `acquire_slot` skips slot `i`
(owner file exists and its pid is alive). -/
def ownerBlocks (aliveEnv : Int → Bool) (f : OwnerFile) : Bool :=
  match ownerFilePid f with
  | some p => is_process_alive aliveEnv p
  | none => false

/-- The slot indices `1..record_limit` scanned by `acquire_slot`
(`range(1, record_limit + 1)`). -/
def slotIndices (limit : Nat) : List Nat :=
  List.range' 1 limit

/-- The ascending scan of `acquire_slot`: skip a slot whose owner file names a
live pid, skip a slot whose non-blocking `flock` fails because the lock is
held (`BlockingIOError`), otherwise take it.  Returns the first free index. -/
def findFreeSlot (aliveEnv : Int → Bool) (fs : SlotFS) : List Nat → Option Nat
  | [] => none
  | i :: rest =>
    if ownerBlocks aliveEnv (fs.owner i) then findFreeSlot aliveEnv fs rest
    else if (fs.lockHolder i).isSome then findFreeSlot aliveEnv fs rest
    else some i

/-- `GlobalSlotManager.acquire_slot` with `fail_fast=True`, executed by process
`pid` whose manager currently holds the slot stack `held` (`self._held`).
A `none` result is the `SlotUnavailable` raise, which leaves everything
unchanged.  On success the winning slot is flocked, pushed on `_held`, and its
owner file is atomically rewritten with our pid/username/timestamp. -/
def acquire_slot_failFast (aliveEnv : Int → Bool) (fs : SlotFS) (held : List Nat)
    (pid : Int) (username : String) (now : String) :
    Option Nat × SlotFS × List Nat :=
  match findFreeSlot aliveEnv fs (slotIndices fs.limit) with
  | none => (none, fs, held)
  | some i =>
    (some i,
     { fs with
        owner := fun j => if j = i then .present ⟨pid, username, now⟩ else fs.owner j,
        lockHolder := fun j => if j = i then some pid else fs.lockHolder j },
     held ++ [i])

/-- `GlobalSlotManager.release_slot`: no-op when `_held` is empty; otherwise
pop the most recently appended `(i, f)` pair, unlink `slotI.owner` and release
the flock. -/
def release_slot (fs : SlotFS) (held : List Nat) : SlotFS × List Nat :=
  match held.getLast? with
  | none => (fs, held)
  | some i =>
    ({ fs with
        owner := fun j => if j = i then .absent else fs.owner j,
        lockHolder := fun j => if j = i then none else fs.lockHolder j },
     held.dropLast)

/-- Number of slots among `1..limit` whose lock is currently held by someone. -/
def heldSlotCount (fs : SlotFS) : Nat :=
  (slotIndices fs.limit).countP (fun i => (fs.lockHolder i).isSome)

/-- Slot `i` is unavailable to `acquire_slot`: its owner file names a live pid,
or its lock is currently held. -/
def slotUnavailable (aliveEnv : Int → Bool) (fs : SlotFS) (i : Nat) : Bool :=
  ownerBlocks aliveEnv (fs.owner i) || (fs.lockHolder i).isSome

lemma findFreeSlot_eq_none (aliveEnv : Int → Bool) (fs : SlotFS) (l : List Nat)
    (h : ∀ i ∈ l, slotUnavailable aliveEnv fs i = true) :
    findFreeSlot aliveEnv fs l = none := by
  induction l with
  | nil => rfl
  | cons i rest ih =>
    have hi := h i (List.mem_cons_self i rest)
    have hrest : ∀ j ∈ rest, slotUnavailable aliveEnv fs j = true := fun j hj =>
      h j (List.mem_cons_of_mem _ hj)
    simp only [slotUnavailable, Bool.or_eq_true] at hi
    simp only [findFreeSlot]
    rcases hi with hb | hl
    · rw [hb]
      exact ih hrest
    · by_cases hb : ownerBlocks aliveEnv (fs.owner i) = true
      · rw [hb]; exact ih hrest
      · simp only [Bool.not_eq_true] at hb
        rw [hb, hl]
        exact ih hrest

lemma findFreeSlot_eq_some (aliveEnv : Int → Bool) (fs : SlotFS) (l : List Nat)
    (i : Nat) (h : findFreeSlot aliveEnv fs l = some i) :
    i ∈ l ∧ ownerBlocks aliveEnv (fs.owner i) = false ∧ fs.lockHolder i = none := by
  induction l with
  | nil => simp [findFreeSlot] at h
  | cons j rest ih =>
    simp only [findFreeSlot] at h
    by_cases hb : ownerBlocks aliveEnv (fs.owner j) = true
    · rw [hb] at h
      rcases ih h with ⟨hm, hx, hy⟩
      exact ⟨List.mem_cons_of_mem _ hm, hx, hy⟩
    · simp only [Bool.not_eq_true] at hb
      rw [hb] at h
      by_cases hl : (fs.lockHolder j).isSome = true
      · rw [hl] at h
        rcases ih h with ⟨hm, hx, hy⟩
        exact ⟨List.mem_cons_of_mem _ hm, hx, hy⟩
      · simp only [Bool.not_eq_true] at hl
        rw [hl] at h
        simp only [Bool.false_eq_true, if_false, Option.some.injEq] at h
        subst h
        refine ⟨List.mem_cons_self _ _, hb, ?_⟩
        exact Option.not_isSome_iff_eq_none.mp (by simp [hl])

lemma countP_pointwise_bump {l : List Nat} {i : Nat} (hnd : l.Nodup) (hi : i ∈ l)
    {p q : Nat → Bool} (hpi : p i = false) (hqi : q i = true)
    (hagree : ∀ j, j ≠ i → q j = p j) :
    l.countP q = l.countP p + 1 := by
  induction l with
  | nil => cases hi
  | cons a rest ih =>
    rcases List.nodup_cons.mp hnd with ⟨hna, hndr⟩
    rcases List.mem_cons.mp hi with heq | hmem
    · subst heq
      have hrest : rest.countP q = rest.countP p := by
        apply List.countP_congr
        intro j hj
        have hji : j ≠ i := fun hja => hna (hja ▸ hj)
        rw [hagree j hji]
      simp [List.countP_cons, hpi, hqi, hrest, Nat.add_comm]
    · have hai : a ≠ i := fun h => by subst h; exact hna hmem
      have hqa : q a = p a := hagree a hai
      simp [List.countP_cons, hqa, ih hndr hmem, Nat.add_assoc, Nat.add_comm 1]

/-- C1: capacity is respected.  (a) At most `N` of the `N` slots are
concurrently locked. (b) When every slot `1..N` is unavailable (owner record
with a live pid, or lock held), `acquire_slot` under `fail_fast` raises
`SlotUnavailable` (returns `none`) immediately, leaving state unchanged.
(c) A successful acquire returns a slot in `1..N` that was previously
unlocked, and raises the held-lock count by exactly one (so at most `N`
acquisitions can be outstanding). -/
theorem acquire_slot_capacity (aliveEnv : Int → Bool) (fs : SlotFS)
    (held : List Nat) (pid : Int) (username now : String) :
    heldSlotCount fs ≤ fs.limit ∧
    ((∀ i ∈ slotIndices fs.limit, slotUnavailable aliveEnv fs i = true) →
      acquire_slot_failFast aliveEnv fs held pid username now = (none, fs, held)) ∧
    (∀ i fs' held',
      acquire_slot_failFast aliveEnv fs held pid username now = (some i, fs', held') →
      i ∈ slotIndices fs.limit ∧ fs.lockHolder i = none ∧
      heldSlotCount fs' = heldSlotCount fs + 1 ∧ held' = held ++ [i]) := by
  refine ⟨?_, ?_, ?_⟩
  · calc heldSlotCount fs ≤ (slotIndices fs.limit).length := List.countP_le_length _
    _ = fs.limit := by simp [slotIndices]
  · intro h
    unfold acquire_slot_failFast
    rw [findFreeSlot_eq_none aliveEnv fs _ h]
  · intro i fs' held' h
    unfold acquire_slot_failFast at h
    cases hf : findFreeSlot aliveEnv fs (slotIndices fs.limit) with
    | none => rw [hf] at h; simp at h
    | some j =>
      rw [hf] at h
      simp only [Prod.mk.injEq, Option.some.injEq] at h
      obtain ⟨hji, hfs, hheld⟩ := h
      subst hji
      rcases findFreeSlot_eq_some aliveEnv fs _ _ hf with ⟨hmem, _, hnone⟩
      refine ⟨hmem, hnone, ?_, hheld.symm⟩
      rw [← hfs]
      simp only [heldSlotCount]
      have hnd : (slotIndices fs.limit).Nodup := by
        simp only [slotIndices]
        exact List.nodup_range' 1 fs.limit
      exact countP_pointwise_bump hnd hmem (by simp [hnone]) (by simp)
        (fun k hk => by simp [hk])

/-- Closed witness for `acquire_slot_capacity`: capacity 2, both slots held by
live owners 101 and 102, so a fail-fast acquire by pid 103 raises. -/
theorem acquire_slot_capacity_witness :
    heldSlotCount ⟨2, fun i => if i = 1 then .present ⟨101, "alice", "t1"⟩
        else if i = 2 then .present ⟨102, "bob", "t2"⟩ else .absent,
      fun i => if i = 1 then some 101 else if i = 2 then some 102 else none⟩ ≤ 2 ∧
    acquire_slot_failFast (fun p => p == 101 || p == 102 || p == 103)
      ⟨2, fun i => if i = 1 then .present ⟨101, "alice", "t1"⟩
        else if i = 2 then .present ⟨102, "bob", "t2"⟩ else .absent,
       fun i => if i = 1 then some 101 else if i = 2 then some 102 else none⟩
      [] 103 "carol" "t3" =
      (none, ⟨2, fun i => if i = 1 then .present ⟨101, "alice", "t1"⟩
        else if i = 2 then .present ⟨102, "bob", "t2"⟩ else .absent,
       fun i => if i = 1 then some 101 else if i = 2 then some 102 else none⟩, []) := by
  have h := acquire_slot_capacity (fun p => p == 101 || p == 102 || p == 103)
    ⟨2, fun i => if i = 1 then .present ⟨101, "alice", "t1"⟩
        else if i = 2 then .present ⟨102, "bob", "t2"⟩ else .absent,
     fun i => if i = 1 then some 101 else if i = 2 then some 102 else none⟩
    [] 103 "carol" "t3"
  exact ⟨h.1, h.2.1 (by decide)⟩

/-! ### C2 scenario: capacity 2, alice/bob/carol

Three distinct worker processes (pids 101, 102, 103, each with its own
`GlobalSlotManager` and hence its own `_held` stack) share the slots
directory. -/

/-- Pid-liveness oracle for the C2 scenario: alice (101), bob (102) and
carol (103) are running. -/
def aliveABC : Int → Bool := fun p => p == 101 || p == 102 || p == 103

/-- Fresh slots directory with capacity 2: no owner files, no locks held. -/
def slotFS2 : SlotFS := ⟨2, fun _ => .absent, fun _ => none⟩

/-- Alice's acquire (her manager starts with an empty `_held`). -/
def c2Alice : Option Nat × SlotFS × List Nat :=
  acquire_slot_failFast aliveABC slotFS2 [] 101 "alice" "t1"

/-- Bob's acquire against the state alice left. -/
def c2Bob : Option Nat × SlotFS × List Nat :=
  acquire_slot_failFast aliveABC c2Alice.2.1 [] 102 "bob" "t2"

/-- Carol's first fail-fast attempt, with both slots owned by live pids. -/
def c2CarolFirst : Option Nat × SlotFS × List Nat :=
  acquire_slot_failFast aliveABC c2Bob.2.1 [] 103 "carol" "t3"

/-- Alice releases: `release_slot` on her manager, whose `_held` is `[1]`. -/
def c2AfterRelease : SlotFS × List Nat :=
  release_slot c2Bob.2.1 c2Alice.2.2

/-- Carol's second fail-fast attempt, after alice released slot 1. -/
def c2CarolSecond : Option Nat × SlotFS × List Nat :=
  acquire_slot_failFast aliveABC c2AfterRelease.1 [] 103 "carol" "t4"

/-- C2: with capacity 2, `acquire_slot("alice")` returns 1,
`acquire_slot("bob")` returns 2, `acquire_slot("carol", fail_fast=True)`
raises (`none`); after alice's `release_slot`, carol's fail-fast acquire
returns the lowest free index 1. -/
theorem slot_scenario_capacity_two :
    c2Alice.1 = some 1 ∧ c2Bob.1 = some 2 ∧ c2CarolFirst.1 = none ∧
    c2CarolSecond.1 = some 1 := by
  refine ⟨rfl, rfl, rfl, rfl⟩

/-- C10: (a) `release_slot` on a manager holding no slot (`_held = []`) is a
no-op: it returns normally and changes neither the slots directory nor the
held stack.  (b) When the manager's most recent successful acquire returned
slot `i`, `release_slot` releases exactly that slot (last-in-first-out): the
held stack reverts to its previous value, slot `i`'s owner file is unlinked
and its lock dropped, and every other slot is untouched. -/
theorem release_slot_noop_and_lifo (aliveEnv : Int → Bool) (fs : SlotFS)
    (held : List Nat) (pid : Int) (username now : String) :
    release_slot fs [] = (fs, []) ∧
    (∀ i fs' held',
      acquire_slot_failFast aliveEnv fs held pid username now = (some i, fs', held') →
      (release_slot fs' held').2 = held ∧
      (release_slot fs' held').1.owner i = .absent ∧
      (release_slot fs' held').1.lockHolder i = none ∧
      ∀ j, j ≠ i → (release_slot fs' held').1.owner j = fs'.owner j ∧
        (release_slot fs' held').1.lockHolder j = fs'.lockHolder j) := by
  constructor
  · rfl
  · intro i fs' held' h
    unfold acquire_slot_failFast at h
    cases hf : findFreeSlot aliveEnv fs (slotIndices fs.limit) with
    | none => rw [hf] at h; simp at h
    | some k =>
      rw [hf] at h
      simp only [Prod.mk.injEq, Option.some.injEq] at h
      obtain ⟨hki, hfs, hheld⟩ := h
      subst hki
      subst hheld
      have hlast : (held ++ [k]).getLast? = some k := by
        simp [List.getLast?_append]
      have hdrop : (held ++ [k]).dropLast = held := by
        simp
      constructor
      · simp [release_slot, hlast, hdrop]
      constructor
      · simp [release_slot, hlast]
      constructor
      · simp [release_slot, hlast]
      · intro j hj
        constructor
        · simp [release_slot, hlast, hj]
        · simp [release_slot, hlast, hj]

/-- Closed witness for `release_slot_noop_and_lifo`: one slot, acquired by pid
7, then released: the held stack returns to empty and slot 1 is freed. -/
theorem release_slot_noop_and_lifo_witness :
    (release_slot
        (acquire_slot_failFast (fun p => p == 7) ⟨1, fun _ => .absent, fun _ => none⟩
          [] 7 "u" "t0").2.1
        (acquire_slot_failFast (fun p => p == 7) ⟨1, fun _ => .absent, fun _ => none⟩
          [] 7 "u" "t0").2.2).2 = [] ∧
    (release_slot
        (acquire_slot_failFast (fun p => p == 7) ⟨1, fun _ => .absent, fun _ => none⟩
          [] 7 "u" "t0").2.1
        (acquire_slot_failFast (fun p => p == 7) ⟨1, fun _ => .absent, fun _ => none⟩
          [] 7 "u" "t0").2.2).1.lockHolder 1 = none := by
  have h := (release_slot_noop_and_lifo (fun p => p == 7)
      ⟨1, fun _ => .absent, fun _ => none⟩ [] 7 "u" "t0").2 1
    (acquire_slot_failFast (fun p => p == 7) ⟨1, fun _ => .absent, fun _ => none⟩
      [] 7 "u" "t0").2.1
    (acquire_slot_failFast (fun p => p == 7) ⟨1, fun _ => .absent, fun _ => none⟩
      [] 7 "u" "t0").2.2 rfl
  exact ⟨h.1, h.2.2.1⟩

/-! ## Job queue (`queue.py`)

A queue directory (`<base>/jobs`) is a finite map from filename to file
content, modelled as an association list.  A file is either a JSON object
with the five job keys or unreadable/malformed (covering the
`json.JSONDecodeError`/`KeyError`/`ValueError`/`OSError` branch of
`list_jobs`). -/

/-- `queue.Job` with its Python dataclass defaults. -/
structure Job where
  input : String
  output : String
  loglevel : String := "error"
  delete_input_on_success : Bool := false
  created_at : String := ""
deriving Repr, DecidableEq

/-- The JSON object produced by `Job.as_dict` and stored in a job file:
keys `in`, `out`, `loglevel`, `delete_input_on_success`, `created_at`
(`inp` stands for the `in` key). -/
structure JobDict where
  inp : String
  out : String
  loglevel : String
  delete_input_on_success : Bool
  created_at : String
deriving Repr, DecidableEq

/-- `Job.as_dict`: field-by-field copy, except `created_at` defaults to the
current timestamp when empty (`self.created_at or now_utc_iso()`; an empty
Python string is falsy). -/
def Job.as_dict (j : Job) (now : String) : JobDict :=
  { inp := j.input
    out := j.output
    loglevel := j.loglevel
    delete_input_on_success := j.delete_input_on_success
    created_at := if j.created_at = "" then now else j.created_at }

/-- Content of one file in the jobs directory.  `json d` is a JSON object on
which `read_job` succeeds (absent optional keys are already folded into the
defaults).  `caught` is a file on which `read_job` raises one of the classes
the `list_jobs` loop catches: unreadable (`OSError`), invalid JSON
(`json.JSONDecodeError`), an object missing the `in`/`out` keys (`KeyError`),
or a `ValueError`.  `nonObject` is a file holding valid JSON that is not an
object (`[]`, `null`, a string, ...): `read_json` succeeds and `d["in"]` in
`read_job` then raises `TypeError`, which `list_jobs` does not catch. -/
inductive FileContent
  | json (d : JobDict)
  | caught
  | nonObject
deriving Repr, DecidableEq

/-- The jobs directory: filenames with their contents. -/
abbrev Dir := List (String × FileContent)

/-- `str.endswith` / matching of a filename against the `*.json` glob:
suffix test on the character data. -/
def strEndsWith (s t : String) : Bool :=
  t.data.isSuffixOf s.data

/-- POSIX `Path.is_absolute`: the path starts with `/`. -/
def isAbsolutePath (s : String) : Bool :=
  s.data.head? == some '/'

/-- Split a character list at every occurrence of `sep`. -/
def splitOnChar (sep : Char) : List Char → List (List Char)
  | [] => [[]]
  | x :: rest =>
    let r := splitOnChar sep rest
    if x = sep then [] :: r
    else
      match r with
      | [] => [[x]]
      | h :: t => (x :: h) :: t

/-- `PurePosixPath(s).name`: the last path component, after dropping empty
components and `.` components (pathlib normalises both away). -/
def pathName (s : String) : String :=
  let comps := (splitOnChar '/' s.data).filter (fun c => c ≠ [] ∧ c ≠ ['.'])
  String.mk (comps.getLastD [])

/-- Index of the last `.` in a character list, if any. -/
def lastDotIndex : List Char → Option Nat
  | [] => none
  | c :: rest =>
    match lastDotIndex rest with
    | some i => some (i + 1)
    | none => if c = '.' then some 0 else none

/-- `PurePosixPath(s).stem`: the name without its suffix.  A suffix exists
only when the last dot is neither the first nor the last character of the
name (so `.bashrc` and `a.` have no suffix). -/
def pathStem (s : String) : String :=
  let name := pathName s
  match lastDotIndex name.data with
  | none => name
  | some i =>
    if 0 < i ∧ i + 1 < name.data.length then String.mk (name.data.take i) else name

/-- Remove every occurrence of a character (`str.replace(c, "")` for a
one-character pattern, as used on `:` and `-` in `write_job`). -/
def removeChar (s : String) (c : Char) : String :=
  String.mk (s.data.filter (fun x => x ≠ c))

/-- The filename chosen by `write_job`:
`f"{created_at with ':' and '-' removed}_{output stem}.json"`. -/
def jobFileName (jd : JobDict) : String :=
  (removeChar (removeChar jd.created_at ':') '-' ++ "_" ++ pathStem jd.out) ++ ".json"

/-- `utils.atomic_write_json` into the directory: replace the file if the name
exists, else create it. -/
def setEntry (dir : Dir) (name : String) (c : FileContent) : Dir :=
  match dir with
  | [] => [(name, c)]
  | (n, c0) :: rest =>
    if n = name then (n, c) :: rest else (n, c0) :: setEntry rest name c

/-- Look a filename up in the directory. -/
def lookupFile (dir : Dir) (name : String) : Option FileContent :=
  match dir with
  | [] => none
  | (n, c) :: rest => if n = name then some c else lookupFile rest name

/-- `queue.write_job`: build the dict, reject non-absolute `in`/`out` paths
with `ValueError("job paths must be absolute")` (leaving the directory
untouched), otherwise atomically write the dict under the generated
filename.  The result is `(outcome, directory afterwards)`. -/
def write_job (dir : Dir) (job : Job) (now : String) :
    Except String String × Dir :=
  let jd := job.as_dict now
  if isAbsolutePath jd.inp && isAbsolutePath jd.out then
    let name := jobFileName jd
    (.ok name, setEntry dir name (.json jd))
  else
    (.error "job paths must be absolute", dir)

/-- `queue.read_job` on a well-formed job file (files it cannot parse are
`FileContent.malformed` and handled by the caller). -/
def read_job (d : JobDict) : Job :=
  { input := d.inp
    output := d.out
    loglevel := d.loglevel
    delete_input_on_success := d.delete_input_on_success
    created_at := d.created_at }

/-- `queue.JobEntry`: path (filename within the jobs dir) plus parsed job. -/
structure JobEntry where
  name : String
  job : Job
deriving Repr, DecidableEq

/-- The sidecar test of `list_jobs`:
`p.name.endswith(".error.json") or p.name.endswith(".failed.json")`. -/
def isSidecarName (n : String) : Bool :=
  strEndsWith n ".error.json" || strEndsWith n ".failed.json"

instance {e a : Type} [DecidableEq e] [DecidableEq a] :
    DecidableEq (Except e a) := fun x y =>
  match x, y with
  | .ok v, .ok w =>
    match decEq v w with
    | isTrue h => isTrue (by rw [h])
    | isFalse h => isFalse (fun he => h (Except.ok.inj he))
  | .error v, .error w =>
    match decEq v w with
    | isTrue h => isTrue (by rw [h])
    | isFalse h => isFalse (fun he => h (Except.error.inj he))
  | .ok _, .error _ => isFalse (fun he => Except.noConfusion he)
  | .error _, .ok _ => isFalse (fun he => Except.noConfusion he)

/-- The `for p in sorted(...)` loop of `list_jobs`: skip sidecar names
(`continue`), parse each remaining file with `read_job`, skipping
(`continue`) those that raise a caught class
(`json.JSONDecodeError`/`KeyError`/`ValueError`/`OSError`); the `TypeError`
raised on a valid non-object JSON file is not caught, so it propagates and
aborts the whole listing (`Except.error ()`). -/
def collectJobs : List (String × FileContent) → Except Unit (List JobEntry)
  | [] => .ok []
  | p :: rest =>
    if isSidecarName p.1 then collectJobs rest
    else
      match p.2 with
      | .json d =>
        match collectJobs rest with
        | .ok es => .ok (⟨p.1, read_job d⟩ :: es)
        | .error e => .error e
      | .caught => collectJobs rest
      | .nonObject => .error ()

/-- Python's `<` on strings: lexicographic comparison by code point. -/
def charListLt : List Char → List Char → Bool
  | [], [] => false
  | [], _ :: _ => true
  | _ :: _, [] => false
  | a :: as, b :: bs =>
    if a < b then true else if b < a then false else charListLt as bs

/-- Python's `<` on the `String` type. -/
def strLt (s t : String) : Bool :=
  charListLt s.data t.data

/-- Python's `<=` on the `String` type (`s < t or s == t`). -/
def strLe (s t : String) : Bool :=
  charListLt s.data t.data || s.data == t.data

lemma charListLt_irrefl (as : List Char) : charListLt as as = false := by
  induction as with
  | nil => rfl
  | cons a as ih => simp [charListLt, ih]

lemma charListLt_asymm (as bs : List Char) (h : charListLt as bs = true) :
    charListLt bs as = false := by
  induction as generalizing bs with
  | nil =>
    cases bs with
    | nil => simp [charListLt] at h
    | cons b bs => rfl
  | cons a as ih =>
    cases bs with
    | nil => simp [charListLt] at h
    | cons b bs =>
      simp only [charListLt] at h ⊢
      rcases lt_trichotomy a b with hab | hab | hab
      · simp [hab, not_lt_of_lt hab, lt_asymm hab]
      · subst hab
        simp only [lt_irrefl, if_false] at h ⊢
        exact ih bs h
      · simp [hab, not_lt_of_lt hab, lt_asymm hab] at h

lemma charListLt_trichotomy (as bs : List Char) :
    charListLt as bs = true ∨ as = bs ∨ charListLt bs as = true := by
  induction as generalizing bs with
  | nil =>
    cases bs with
    | nil => exact Or.inr (Or.inl rfl)
    | cons b bs => exact Or.inl rfl
  | cons a as ih =>
    cases bs with
    | nil => exact Or.inr (Or.inr rfl)
    | cons b bs =>
      rcases lt_trichotomy a b with hab | hab | hab
      · exact Or.inl (by simp [charListLt, hab])
      · subst hab
        rcases ih bs with h | h | h
        · exact Or.inl (by simp [charListLt, h])
        · exact Or.inr (Or.inl (by rw [h]))
        · exact Or.inr (Or.inr (by simp [charListLt, h]))
      · exact Or.inr (Or.inr (by simp [charListLt, hab]))

lemma charListLt_trans (as bs cs : List Char) (h1 : charListLt as bs = true)
    (h2 : charListLt bs cs = true) : charListLt as cs = true := by
  induction as generalizing bs cs with
  | nil =>
    cases bs with
    | nil => simp [charListLt] at h1
    | cons b bs =>
      cases cs with
      | nil => simp [charListLt] at h2
      | cons c cs => rfl
  | cons a as ih =>
    cases bs with
    | nil => simp [charListLt] at h1
    | cons b bs =>
      cases cs with
      | nil => simp [charListLt] at h2
      | cons c cs =>
        simp only [charListLt] at h1 h2 ⊢
        rcases lt_trichotomy a b with hab | hab | hab
        · rcases lt_trichotomy b c with hbc | hbc | hbc
          · have hac : a < c := lt_trans hab hbc
            simp [hac]
          · subst hbc
            simp [hab]
          · simp [hbc, not_lt_of_lt hbc, lt_asymm hbc] at h2
        · subst hab
          rcases lt_trichotomy a c with hac | hac | hac
          · simp [hac]
          · subst hac
            simp only [lt_irrefl, if_false] at h1 h2 ⊢
            exact ih bs cs h1 h2
          · simp [not_lt_of_lt hac, hac] at h2
        · simp [lt_asymm hab, hab] at h1

lemma strLe_total (s t : String) : strLe s t = true ∨ strLe t s = true := by
  rcases charListLt_trichotomy s.data t.data with h | h | h
  · exact Or.inl (by simp [strLe, h])
  · exact Or.inl (by simp [strLe, h])
  · exact Or.inr (by simp [strLe, h])

lemma strLe_trans (s t u : String) (h1 : strLe s t = true) (h2 : strLe t u = true) :
    strLe s u = true := by
  simp only [strLe, Bool.or_eq_true, beq_iff_eq] at h1 h2 ⊢
  rcases h1 with h1 | h1
  · rcases h2 with h2 | h2
    · exact Or.inl (charListLt_trans _ _ _ h1 h2)
    · exact Or.inl (h2 ▸ h1)
  · rcases h2 with h2 | h2
    · exact Or.inl (h1 ▸ h2)
    · exact Or.inr (h1.trans h2)

lemma strLt_ne (s t : String) (h : strLt s t = true) : s ≠ t := by
  intro he
  subst he
  simp [strLt, charListLt_irrefl] at h

/-- Filename order used by `sorted(jobs.glob("*.json"))` (paths in one
directory compare by their final component, code point by code point). -/
def fileNameLE (a b : String × FileContent) : Prop :=
  strLe a.1 b.1 = true

instance : DecidableRel fileNameLE := fun _a _b =>
  inferInstanceAs (Decidable (_ = true))

instance : IsTotal (String × FileContent) fileNameLE :=
  ⟨fun a b => strLe_total a.1 b.1⟩

instance : IsTrans (String × FileContent) fileNameLE :=
  ⟨fun _ _ _ h1 h2 => strLe_trans _ _ _ h1 h2⟩

/-- The sort key order of `entries.sort(key=lambda e: (e.job.created_at,
e.path.name))`: Python tuple comparison is lexicographic. -/
def entryKeyLE (a b : JobEntry) : Prop :=
  strLt a.job.created_at b.job.created_at = true ∨
    (a.job.created_at = b.job.created_at ∧ strLe a.name b.name = true)

instance : DecidableRel entryKeyLE := fun _a _b =>
  inferInstanceAs (Decidable (_ ∨ _))

instance : IsTotal JobEntry entryKeyLE := by
  constructor
  intro a b
  rcases charListLt_trichotomy a.job.created_at.data b.job.created_at.data with h | h | h
  · exact Or.inl (Or.inl h)
  · have he : a.job.created_at = b.job.created_at := String.ext h
    rcases strLe_total a.name b.name with hn | hn
    · exact Or.inl (Or.inr ⟨he, hn⟩)
    · exact Or.inr (Or.inr ⟨he.symm, hn⟩)
  · exact Or.inr (Or.inl h)

instance : IsTrans JobEntry entryKeyLE := by
  constructor
  intro a b c hab hbc
  rcases hab with h1 | ⟨h1, h1n⟩
  · rcases hbc with h2 | ⟨h2, _⟩
    · exact Or.inl (charListLt_trans _ _ _ h1 h2)
    · exact Or.inl (by rw [← h2]; exact h1)
  · rcases hbc with h2 | ⟨h2, h2n⟩
    · exact Or.inl (by rw [h1]; exact h2)
    · exact Or.inr ⟨h1.trans h2, strLe_trans _ _ _ h1n h2n⟩

/-- `queue.list_jobs`: enumerate `*.json` files in filename order, run the
loop (`collectJobs`: sidecars and caught-class failures skipped, `TypeError`
propagating), then stable-sort the surviving entries by
`(created_at, filename)`.  An `Except.error ()` result is the uncaught
`TypeError` aborting the listing. -/
def list_jobs (dir : Dir) : Except Unit (List JobEntry) :=
  let globbed :=
    List.insertionSort fileNameLE (dir.filter (fun p => strEndsWith p.1 ".json"))
  match collectJobs globbed with
  | .ok entries => .ok (List.insertionSort entryKeyLE entries)
  | .error e => .error e

/-- `queue.oldest_job`: first entry of `list_jobs`, if any (an exception
raised by `list_jobs` propagates). -/
def oldest_job (dir : Dir) : Except Unit (Option JobEntry) :=
  match list_jobs dir with
  | .ok l => .ok l.head?
  | .error e => .error e

lemma strEndsWith_append (a b : String) : strEndsWith (a ++ b) b = true := by
  rw [strEndsWith, String.data_append]
  rw [List.isSuffixOf_iff_suffix]
  exact List.suffix_append a.data b.data

lemma jobFileName_endsWith_json (jd : JobDict) :
    strEndsWith (jobFileName jd) ".json" = true :=
  strEndsWith_append (removeChar (removeChar jd.created_at ':') '-' ++ "_" ++ pathStem jd.out)
    ".json"

lemma read_job_as_dict (j : Job) (now : String) (h : j.created_at ≠ "") :
    read_job (j.as_dict now) = j := by
  cases j with
  | mk i o l d c => simp [read_job, Job.as_dict, h]

lemma lookupFile_setEntry_self (dir : Dir) (n : String) (c : FileContent) :
    lookupFile (setEntry dir n c) n = some c := by
  induction dir with
  | nil => simp [setEntry, lookupFile]
  | cons p rest ih =>
    obtain ⟨m, c0⟩ := p
    by_cases h : m = n
    · subst h
      simp [setEntry, lookupFile]
    · simp [setEntry, lookupFile, h, ih]

/-- C7: `write_job` raises `ValueError("job paths must be absolute")` whenever
the job's input or output path is non-absolute, and in that case nothing is
written: the queue directory is returned unchanged. -/
theorem write_job_rejects_relative (dir : Dir) (job : Job) (now : String)
    (h : isAbsolutePath job.input = false ∨ isAbsolutePath job.output = false) :
    write_job dir job now = (.error "job paths must be absolute", dir) := by
  rcases h with h | h
  · simp [write_job, Job.as_dict, h]
  · simp [write_job, Job.as_dict, h]

/-- Closed witness for `write_job_rejects_relative`: a relative input path is
rejected and an empty queue directory stays empty. -/
theorem write_job_rejects_relative_witness :
    write_job [] { input := "rel/in.ts", output := "/abs/out.mp4" } "t0" =
      (.error "job paths must be absolute", []) :=
  write_job_rejects_relative [] { input := "rel/in.ts", output := "/abs/out.mp4" } "t0"
    (Or.inl (by decide))

/-- C9: for a job with absolute paths and a non-empty `created_at`, the file
produced by `write_job` parses back (via `read_job`) to a `Job` equal to the
original in all five fields. -/
theorem write_job_read_job_roundtrip (dir : Dir) (job : Job) (now : String)
    (h1 : isAbsolutePath job.input = true) (h2 : isAbsolutePath job.output = true)
    (h3 : job.created_at ≠ "") :
    (write_job dir job now).1 = .ok (jobFileName (job.as_dict now)) ∧
    lookupFile (write_job dir job now).2 (jobFileName (job.as_dict now)) =
      some (.json (job.as_dict now)) ∧
    read_job (job.as_dict now) = job := by
  have hcond : (isAbsolutePath (job.as_dict now).inp &&
      isAbsolutePath (job.as_dict now).out) = true := by
    simp [Job.as_dict, h1, h2]
  refine ⟨?_, ?_, read_job_as_dict job now h3⟩
  · simp [write_job, hcond]
  · simp [write_job, hcond, lookupFile_setEntry_self]

/-- Closed witness for `write_job_read_job_roundtrip` at a concrete job. -/
theorem write_job_read_job_roundtrip_witness :
    read_job (Job.as_dict
      { input := "/cap/alice.ts", output := "/enc/alice.mp4",
        created_at := "2025-01-02T03:04:05+00:00" } "tnow") =
      { input := "/cap/alice.ts", output := "/enc/alice.mp4",
        created_at := "2025-01-02T03:04:05+00:00" } :=
  (write_job_read_job_roundtrip []
    { input := "/cap/alice.ts", output := "/enc/alice.mp4",
      created_at := "2025-01-02T03:04:05+00:00" } "tnow"
    (by decide) (by decide) (by decide)).2.2

lemma collectJobs_error_iff (l : List (String × FileContent)) :
    collectJobs l = .error () ↔
      ∃ p ∈ l, p.2 = FileContent.nonObject ∧ isSidecarName p.1 = false := by
  induction l with
  | nil => simp [collectJobs]
  | cons q rest ih =>
    by_cases hsc : isSidecarName q.1 = true
    · rw [show collectJobs (q :: rest) = collectJobs rest by
        simp only [collectJobs, if_pos hsc]]
      rw [ih]
      constructor
      · rintro ⟨p, hp, h2, h3⟩
        exact ⟨p, List.mem_cons_of_mem _ hp, h2, h3⟩
      · rintro ⟨p, hp, h2, h3⟩
        rcases List.mem_cons.mp hp with rfl | hp2
        · rw [hsc] at h3; cases h3
        · exact ⟨p, hp2, h2, h3⟩
    · have hsc2 : isSidecarName q.1 = false := by
        cases hx : isSidecarName q.1
        · rfl
        · exact absurd hx hsc
      cases hq2 : q.2 with
      | json d =>
        have hcol : collectJobs (q :: rest) =
            match collectJobs rest with
            | .ok es => .ok (⟨q.1, read_job d⟩ :: es)
            | .error e => .error e := by
          simp only [collectJobs, if_neg hsc, hq2]
        constructor
        · intro h
          rw [hcol] at h
          cases hr : collectJobs rest with
          | ok es => rw [hr] at h; cases h
          | error e =>
            rcases (ih.mp (by rw [hr])) with ⟨p, hp, h2, h3⟩
            exact ⟨p, List.mem_cons_of_mem _ hp, h2, h3⟩
        · rintro ⟨p, hp, h2, h3⟩
          rcases List.mem_cons.mp hp with rfl | hp2
          · rw [hq2] at h2; cases h2
          · have hrest := ih.mpr ⟨p, hp2, h2, h3⟩
            rw [hcol, hrest]
      | caught =>
        rw [show collectJobs (q :: rest) = collectJobs rest by
          simp only [collectJobs, if_neg hsc, hq2]]
        rw [ih]
        constructor
        · rintro ⟨p, hp, h2, h3⟩
          exact ⟨p, List.mem_cons_of_mem _ hp, h2, h3⟩
        · rintro ⟨p, hp, h2, h3⟩
          rcases List.mem_cons.mp hp with rfl | hp2
          · rw [hq2] at h2; cases h2
          · exact ⟨p, hp2, h2, h3⟩
      | nonObject =>
        rw [show collectJobs (q :: rest) = .error () by
          simp only [collectJobs, if_neg hsc, hq2]]
        constructor
        · intro _
          exact ⟨q, List.mem_cons_self _ _, hq2, hsc2⟩
        · intro _
          rfl

lemma collectJobs_ok_mem (l : List (String × FileContent)) (es : List JobEntry)
    (h : collectJobs l = .ok es) :
    ∀ p ∈ l, ∀ d, p.2 = FileContent.json d → isSidecarName p.1 = false →
      (⟨p.1, read_job d⟩ : JobEntry) ∈ es := by
  induction l generalizing es with
  | nil =>
    intro p hp
    cases hp
  | cons q rest ih =>
    intro p hp d hpd hpside
    by_cases hsc : isSidecarName q.1 = true
    · have hrest : collectJobs rest = .ok es := by
        rw [← h]; simp only [collectJobs, if_pos hsc]
      rcases List.mem_cons.mp hp with rfl | hp2
      · rw [hsc] at hpside; cases hpside
      · exact ih es hrest p hp2 d hpd hpside
    · cases hq2 : q.2 with
      | json d0 =>
        have hcol : collectJobs (q :: rest) =
            match collectJobs rest with
            | .ok es0 => .ok (⟨q.1, read_job d0⟩ :: es0)
            | .error e => .error e := by
          simp only [collectJobs, if_neg hsc, hq2]
        rw [hcol] at h
        cases hr : collectJobs rest with
        | ok es0 =>
          rw [hr] at h
          obtain rfl := Except.ok.inj h
          rcases List.mem_cons.mp hp with rfl | hp2
          · have hd : d0 = d := by
              rw [hq2] at hpd
              exact (FileContent.json.inj hpd)
            subst hd
            exact List.mem_cons_self _ _
          · exact List.mem_cons_of_mem _ (ih es0 hr p hp2 d hpd hpside)
        | error e => rw [hr] at h; cases h
      | caught =>
        have hrest : collectJobs rest = .ok es := by
          rw [← h]; simp only [collectJobs, if_neg hsc, hq2]
        rcases List.mem_cons.mp hp with rfl | hp2
        · rw [hq2] at hpd; cases hpd
        · exact ih es hrest p hp2 d hpd hpside
      | nonObject =>
        rw [show collectJobs (q :: rest) = .error () by
          simp only [collectJobs, if_neg hsc, hq2]] at h
        cases h

lemma collectJobs_ok_src (l : List (String × FileContent)) (es : List JobEntry)
    (h : collectJobs l = .ok es) :
    ∀ e ∈ es, ∃ p ∈ l, ∃ d, p.2 = FileContent.json d ∧
      e = ⟨p.1, read_job d⟩ ∧ isSidecarName p.1 = false := by
  induction l generalizing es with
  | nil =>
    simp only [collectJobs] at h
    obtain rfl := Except.ok.inj h
    intro e he
    cases he
  | cons q rest ih =>
    intro e he
    by_cases hsc : isSidecarName q.1 = true
    · have hrest : collectJobs rest = .ok es := by
        rw [← h]; simp only [collectJobs, if_pos hsc]
      rcases ih es hrest e he with ⟨p, hp, d, h1, h2, h3⟩
      exact ⟨p, List.mem_cons_of_mem _ hp, d, h1, h2, h3⟩
    · have hsc2 : isSidecarName q.1 = false := by
        cases hx : isSidecarName q.1
        · rfl
        · exact absurd hx hsc
      cases hq2 : q.2 with
      | json d0 =>
        have hcol : collectJobs (q :: rest) =
            match collectJobs rest with
            | .ok es0 => .ok (⟨q.1, read_job d0⟩ :: es0)
            | .error e => .error e := by
          simp only [collectJobs, if_neg hsc, hq2]
        rw [hcol] at h
        cases hr : collectJobs rest with
        | ok es0 =>
          rw [hr] at h
          obtain rfl := Except.ok.inj h
          rcases List.mem_cons.mp he with rfl | he2
          · exact ⟨q, List.mem_cons_self _ _, d0, hq2, rfl, hsc2⟩
          · rcases ih es0 hr e he2 with ⟨p, hp, d, h1, h2, h3⟩
            exact ⟨p, List.mem_cons_of_mem _ hp, d, h1, h2, h3⟩
        | error e0 => rw [hr] at h; cases h
      | caught =>
        have hrest : collectJobs rest = .ok es := by
          rw [← h]; simp only [collectJobs, if_neg hsc, hq2]
        rcases ih es hrest e he with ⟨p, hp, d, h1, h2, h3⟩
        exact ⟨p, List.mem_cons_of_mem _ hp, d, h1, h2, h3⟩
      | nonObject =>
        rw [show collectJobs (q :: rest) = .error () by
          simp only [collectJobs, if_neg hsc, hq2]] at h
        cases h

/-- C6 counterexample: the loop of `list_jobs` catches only
`json.JSONDecodeError`/`KeyError`/`ValueError`/`OSError`, so a `*.json` file
holding valid non-object JSON (such as `[]`) raises an uncaught `TypeError`
in `read_job` and the whole listing fails — even though a well-formed job
file is present, no remaining entries are returned (second conjunct: without
the bad file, that entry is returned). -/
theorem list_jobs_fails_on_non_object_json :
    list_jobs [("20250101_a.json", FileContent.nonObject),
      ("20250102_b.json", .json ⟨"/i/b.ts", "/o/b.mp4", "error", false, "2025-01-02"⟩)] =
      .error () ∧
    list_jobs [("20250102_b.json",
        FileContent.json ⟨"/i/b.ts", "/o/b.mp4", "error", false, "2025-01-02"⟩)] =
      .ok [⟨"20250102_b.json",
        read_job ⟨"/i/b.ts", "/o/b.mp4", "error", false, "2025-01-02"⟩⟩] :=
  ⟨by decide, by decide⟩

/-- C6 (amended): whenever `list_jobs` returns, (a) no returned entry's
filename ends in `.error.json` or `.failed.json`; (b) every well-formed,
non-sidecar `*.json` file yields an entry, so files whose parse failure is
one of the caught classes (unreadable, invalid JSON, missing keys) are
skipped without losing the remaining entries; (c) every returned entry comes
from some well-formed file; and (d) the listing fails — with the uncaught
`TypeError` — exactly when some non-sidecar `*.json` file holds valid
non-object JSON. -/
theorem list_jobs_skips_caught_fails_on_typeerror (dir : Dir) :
    (∀ l, list_jobs dir = .ok l → ∀ e ∈ l, isSidecarName e.name = false) ∧
    (∀ l, list_jobs dir = .ok l → ∀ n d, (n, FileContent.json d) ∈ dir →
      strEndsWith n ".json" = true → isSidecarName n = false →
      (⟨n, read_job d⟩ : JobEntry) ∈ l) ∧
    (∀ l, list_jobs dir = .ok l → ∀ e ∈ l,
      ∃ d, (e.name, FileContent.json d) ∈ dir ∧ e.job = read_job d) ∧
    (list_jobs dir = .error () ↔
      ∃ n, (n, FileContent.nonObject) ∈ dir ∧ strEndsWith n ".json" = true ∧
        isSidecarName n = false) := by
  have hmemG : ∀ p : String × FileContent,
      p ∈ List.insertionSort fileNameLE (dir.filter (fun q => strEndsWith q.1 ".json")) ↔
      p ∈ dir ∧ strEndsWith p.1 ".json" = true := by
    intro p
    rw [List.mem_insertionSort, List.mem_filter]
  refine ⟨?_, ?_, ?_, ?_⟩
  · intro l hl e he
    simp only [list_jobs] at hl
    cases hc : collectJobs
        (List.insertionSort fileNameLE (dir.filter (fun q => strEndsWith q.1 ".json"))) with
    | ok es =>
      rw [hc] at hl
      obtain rfl := Except.ok.inj hl
      rw [List.mem_insertionSort] at he
      rcases collectJobs_ok_src _ es hc e he with ⟨p, _, d, _, h2, h3⟩
      rw [h2]
      exact h3
    | error e0 => rw [hc] at hl; cases hl
  · intro l hl n d hmem hjson hside
    simp only [list_jobs] at hl
    cases hc : collectJobs
        (List.insertionSort fileNameLE (dir.filter (fun q => strEndsWith q.1 ".json"))) with
    | ok es =>
      rw [hc] at hl
      obtain rfl := Except.ok.inj hl
      rw [List.mem_insertionSort]
      exact collectJobs_ok_mem _ es hc (n, .json d) ((hmemG (n, .json d)).mpr ⟨hmem, hjson⟩)
        d rfl hside
    | error e0 => rw [hc] at hl; cases hl
  · intro l hl e he
    simp only [list_jobs] at hl
    cases hc : collectJobs
        (List.insertionSort fileNameLE (dir.filter (fun q => strEndsWith q.1 ".json"))) with
    | ok es =>
      rw [hc] at hl
      obtain rfl := Except.ok.inj hl
      rw [List.mem_insertionSort] at he
      rcases collectJobs_ok_src _ es hc e he with ⟨p, hp, d, h1, h2, _⟩
      refine ⟨d, ?_, by rw [h2]⟩
      have hpd : p ∈ dir := ((hmemG p).mp hp).1
      have hpe : p = (e.name, FileContent.json d) := by
        rcases p with ⟨pn, pc⟩
        have h1e : pc = FileContent.json d := h1
        have h2e : e.name = pn := by rw [h2]
        rw [h1e, h2e]
      rw [← hpe]
      exact hpd
    | error e0 => rw [hc] at hl; cases hl
  · simp only [list_jobs]
    cases hc : collectJobs
        (List.insertionSort fileNameLE (dir.filter (fun q => strEndsWith q.1 ".json"))) with
    | ok es =>
      constructor
      · intro h
        cases h
      · rintro ⟨n, hmem, hjson, hside⟩
        have herr : collectJobs
            (List.insertionSort fileNameLE (dir.filter (fun q => strEndsWith q.1 ".json"))) =
            .error () :=
          (collectJobs_error_iff _).mpr
            ⟨(n, FileContent.nonObject), (hmemG (n, .nonObject)).mpr ⟨hmem, hjson⟩, rfl, hside⟩
        rw [hc] at herr
        cases herr
    | error e0 =>
      cases e0
      constructor
      · intro _
        rcases (collectJobs_error_iff _).mp hc with ⟨p, hp, h2, h3⟩
        rcases p with ⟨pn, pc⟩
        rcases (hmemG (pn, pc)).mp hp with ⟨hpd, hpj⟩
        subst h2
        exact ⟨pn, hpd, hpj, h3⟩
      · intro _
        rfl

/-- Closed witness for `list_jobs_skips_caught_fails_on_typeerror`: a
directory with one caught-class unreadable file, one well-formed job file and
one sidecar still lists the well-formed entry. -/
theorem list_jobs_skips_caught_witness :
    (⟨"20250101T000000+0000_a.json",
        read_job ⟨"/i/a.ts", "/o/a.mp4", "error", false, "2025"⟩⟩ : JobEntry) ∈
      [(⟨"20250101T000000+0000_a.json",
          read_job ⟨"/i/a.ts", "/o/a.mp4", "error", false, "2025"⟩⟩ : JobEntry)] :=
  (list_jobs_skips_caught_fails_on_typeerror [("zz.json", .caught),
      ("20250101T000000+0000_a.json", .json ⟨"/i/a.ts", "/o/a.mp4", "error", false, "2025"⟩),
      ("x.error.json", .json ⟨"/i/x.ts", "/o/x.mp4", "error", false, "2020"⟩)]).2.1
    [⟨"20250101T000000+0000_a.json", read_job ⟨"/i/a.ts", "/o/a.mp4", "error", false, "2025"⟩⟩]
    (by decide) "20250101T000000+0000_a.json" ⟨"/i/a.ts", "/o/a.mp4", "error", false, "2025"⟩
    (by decide) (by decide) (by decide)

lemma insertionSort_pair {α : Type} (r : α → α → Prop) [DecidableRel r] (a b : α) :
    List.insertionSort r [a, b] = if r a b then [a, b] else [b, a] := by
  simp [List.insertionSort, List.orderedInsert]

lemma list_jobs_of_collect (dir : Dir) (es : List JobEntry)
    (h : collectJobs
      (List.insertionSort fileNameLE (dir.filter (fun p => strEndsWith p.1 ".json"))) =
      .ok es) :
    list_jobs dir = .ok (List.insertionSort entryKeyLE es) := by
  simp only [list_jobs]
  rw [h]

/-! ### C3: FIFO order of the queue

The claim "for every two jobs written with `write_job` with `created_at`
`t1 < t2`, `list_jobs`/`oldest_job` return the `t1` job first" fails as
stated: `write_job` derives the filename from the output stem, so a job whose
output stem ends in `.error` (or `.failed`) produces a file named
`*.error.json`, which `list_jobs` skips as a sidecar — the older job is then
never returned at all. -/

/-- Older job of the counterexample: `created_at = "A"` and an output whose
stem `v.error` makes `write_job` name the file `A_v.error.json`. -/
def c3JobOld : Job :=
  { input := "/in/old.ts", output := "/out/v.error.mkv", created_at := "A" }

/-- Newer job of the counterexample (`created_at = "B" > "A"`). -/
def c3JobNew : Job :=
  { input := "/in/new.ts", output := "/out/w.mkv", created_at := "B" }

/-- The queue directory after writing the older job and then the newer one. -/
def c3Dir : Dir :=
  (write_job (write_job [] c3JobOld "tA").2 c3JobNew "tB").2

/-- C3 counterexample: both writes succeed and the older (`t1 = "A"`) job's
file is `A_v.error.json`, but `list_jobs` returns only the newer job and
`oldest_job` is the newer job — the `t1` job is not returned at all, so it is
not returned before the `t2` job. -/
theorem list_jobs_misses_sidecar_named_job :
    c3Dir = [("A_v.error.json", .json (c3JobOld.as_dict "tA")),
             ("B_w.json", .json (c3JobNew.as_dict "tB"))] ∧
    strLt c3JobOld.created_at c3JobNew.created_at = true ∧
    list_jobs c3Dir = .ok [⟨"B_w.json", c3JobNew⟩] ∧
    oldest_job c3Dir = .ok (some ⟨"B_w.json", c3JobNew⟩) := by
  refine ⟨by decide, by decide, by decide, by decide⟩

/-- C3 (amended): `list_jobs` always returns entries sorted by
`(created_at, filename)` (filename breaks `created_at` ties); and for two
jobs written with `write_job` in either order, with `t1 < t2`, distinct
generated filenames, and neither filename sidecar-shaped, `list_jobs`
returns the `t1` job strictly before the `t2` job and `oldest_job` is the
`t1` job. -/
theorem list_jobs_fifo_order (j1 j2 : Job) (now1 now2 : String)
    (ha1 : isAbsolutePath j1.input = true) (ha2 : isAbsolutePath j1.output = true)
    (hb1 : isAbsolutePath j2.input = true) (hb2 : isAbsolutePath j2.output = true)
    (hc1 : j1.created_at ≠ "") (hc2 : j2.created_at ≠ "")
    (ht : strLt j1.created_at j2.created_at = true)
    (hn : jobFileName (j1.as_dict now1) ≠ jobFileName (j2.as_dict now2))
    (hs1 : isSidecarName (jobFileName (j1.as_dict now1)) = false)
    (hs2 : isSidecarName (jobFileName (j2.as_dict now2)) = false) :
    (∀ (dir : Dir) (l : List JobEntry), list_jobs dir = .ok l →
      List.Sorted entryKeyLE l) ∧
    list_jobs (write_job (write_job [] j1 now1).2 j2 now2).2 =
      .ok [⟨jobFileName (j1.as_dict now1), j1⟩, ⟨jobFileName (j2.as_dict now2), j2⟩] ∧
    list_jobs (write_job (write_job [] j2 now2).2 j1 now1).2 =
      .ok [⟨jobFileName (j1.as_dict now1), j1⟩, ⟨jobFileName (j2.as_dict now2), j2⟩] ∧
    oldest_job (write_job (write_job [] j1 now1).2 j2 now2).2 =
      .ok (some ⟨jobFileName (j1.as_dict now1), j1⟩) ∧
    oldest_job (write_job (write_job [] j2 now2).2 j1 now1).2 =
      .ok (some ⟨jobFileName (j1.as_dict now1), j1⟩) := by
  have hcond1 : (isAbsolutePath (j1.as_dict now1).inp &&
      isAbsolutePath (j1.as_dict now1).out) = true := by
    simp [Job.as_dict, ha1, ha2]
  have hcond2 : (isAbsolutePath (j2.as_dict now2).inp &&
      isAbsolutePath (j2.as_dict now2).out) = true := by
    simp [Job.as_dict, hb1, hb2]
  have hw1 : write_job [] j1 now1 =
      (.ok (jobFileName (j1.as_dict now1)),
       [(jobFileName (j1.as_dict now1), .json (j1.as_dict now1))]) := by
    simp only [write_job, hcond1, if_true, setEntry]
  have hw2 : write_job [] j2 now2 =
      (.ok (jobFileName (j2.as_dict now2)),
       [(jobFileName (j2.as_dict now2), .json (j2.as_dict now2))]) := by
    simp only [write_job, hcond2, if_true, setEntry]
  have hd12 : (write_job (write_job [] j1 now1).2 j2 now2).2 =
      [(jobFileName (j1.as_dict now1), .json (j1.as_dict now1)),
       (jobFileName (j2.as_dict now2), .json (j2.as_dict now2))] := by
    rw [hw1]
    simp only [write_job, hcond2, if_true, setEntry]
    rw [if_neg hn]
  have hd21 : (write_job (write_job [] j2 now2).2 j1 now1).2 =
      [(jobFileName (j2.as_dict now2), .json (j2.as_dict now2)),
       (jobFileName (j1.as_dict now1), .json (j1.as_dict now1))] := by
    rw [hw2]
    simp only [write_job, hcond1, if_true, setEntry]
    rw [if_neg (fun h => hn h.symm)]
  have hkey12 : entryKeyLE ⟨jobFileName (j1.as_dict now1), j1⟩
      ⟨jobFileName (j2.as_dict now2), j2⟩ := Or.inl ht
  have hkey21 : ¬ entryKeyLE ⟨jobFileName (j2.as_dict now2), j2⟩
      ⟨jobFileName (j1.as_dict now1), j1⟩ := by
    intro h
    rcases h with h | ⟨heq, _⟩
    · have hasym : charListLt j2.created_at.data j1.created_at.data = false :=
        charListLt_asymm _ _ ht
      have hh : charListLt j2.created_at.data j1.created_at.data = true := h
      rw [hh] at hasym
      cases hasym
    · have heq2 : j1.created_at = j2.created_at := Eq.symm heq
      exact strLt_ne _ _ ht heq2
  have hr1 : read_job (j1.as_dict now1) = j1 := read_job_as_dict j1 now1 hc1
  have hr2 : read_job (j2.as_dict now2) = j2 := read_job_as_dict j2 now2 hc2
  have hjson1 := jobFileName_endsWith_json (j1.as_dict now1)
  have hjson2 := jobFileName_endsWith_json (j2.as_dict now2)
  have hcol12 : collectJobs
      [(jobFileName (j1.as_dict now1), FileContent.json (j1.as_dict now1)),
       (jobFileName (j2.as_dict now2), FileContent.json (j2.as_dict now2))] =
      .ok [⟨jobFileName (j1.as_dict now1), j1⟩, ⟨jobFileName (j2.as_dict now2), j2⟩] := by
    simp [collectJobs, hs1, hs2, hr1, hr2]
  have hcol21 : collectJobs
      [(jobFileName (j2.as_dict now2), FileContent.json (j2.as_dict now2)),
       (jobFileName (j1.as_dict now1), FileContent.json (j1.as_dict now1))] =
      .ok [⟨jobFileName (j2.as_dict now2), j2⟩, ⟨jobFileName (j1.as_dict now1), j1⟩] := by
    simp [collectJobs, hs1, hs2, hr1, hr2]
  have hlist : ∀ l : Dir,
      (l = [(jobFileName (j1.as_dict now1), .json (j1.as_dict now1)),
            (jobFileName (j2.as_dict now2), .json (j2.as_dict now2))] ∨
       l = [(jobFileName (j2.as_dict now2), .json (j2.as_dict now2)),
            (jobFileName (j1.as_dict now1), .json (j1.as_dict now1))]) →
      list_jobs l =
        .ok [⟨jobFileName (j1.as_dict now1), j1⟩, ⟨jobFileName (j2.as_dict now2), j2⟩] := by
    intro l hl
    have hstep : (l.filter (fun p => strEndsWith p.1 ".json")) = l := by
      rcases hl with rfl | rfl <;> simp [hjson1, hjson2]
    have hsorted :
        List.insertionSort fileNameLE (l.filter (fun p => strEndsWith p.1 ".json")) =
          [(jobFileName (j1.as_dict now1), .json (j1.as_dict now1)),
           (jobFileName (j2.as_dict now2), .json (j2.as_dict now2))] ∨
        List.insertionSort fileNameLE (l.filter (fun p => strEndsWith p.1 ".json")) =
          [(jobFileName (j2.as_dict now2), .json (j2.as_dict now2)),
           (jobFileName (j1.as_dict now1), .json (j1.as_dict now1))] := by
      rw [hstep]
      rcases hl with rfl | rfl
      · rw [insertionSort_pair]
        by_cases hord : fileNameLE (jobFileName (j1.as_dict now1), .json (j1.as_dict now1))
            (jobFileName (j2.as_dict now2), .json (j2.as_dict now2))
        · rw [if_pos hord]; exact Or.inl rfl
        · rw [if_neg hord]; exact Or.inr rfl
      · rw [insertionSort_pair]
        by_cases hord : fileNameLE (jobFileName (j2.as_dict now2), .json (j2.as_dict now2))
            (jobFileName (j1.as_dict now1), .json (j1.as_dict now1))
        · rw [if_pos hord]; exact Or.inr rfl
        · rw [if_neg hord]; exact Or.inl rfl
    rcases hsorted with hss | hss
    · have hc : collectJobs
          (List.insertionSort fileNameLE (l.filter (fun p => strEndsWith p.1 ".json"))) =
          .ok [⟨jobFileName (j1.as_dict now1), j1⟩, ⟨jobFileName (j2.as_dict now2), j2⟩] := by
        rw [hss]
        exact hcol12
      rw [list_jobs_of_collect l _ hc, insertionSort_pair, if_pos hkey12]
    · have hc : collectJobs
          (List.insertionSort fileNameLE (l.filter (fun p => strEndsWith p.1 ".json"))) =
          .ok [⟨jobFileName (j2.as_dict now2), j2⟩, ⟨jobFileName (j1.as_dict now1), j1⟩] := by
        rw [hss]
        exact hcol21
      rw [list_jobs_of_collect l _ hc, insertionSort_pair, if_neg hkey21]
  have h12 := hlist _ (Or.inl hd12)
  have h21 := hlist _ (Or.inr hd21)
  refine ⟨?_, h12, h21, ?_, ?_⟩
  · intro dir l hl
    simp only [list_jobs] at hl
    cases hc : collectJobs
        (List.insertionSort fileNameLE (dir.filter (fun p => strEndsWith p.1 ".json"))) with
    | ok es =>
      rw [hc] at hl
      obtain rfl := Except.ok.inj hl
      exact List.sorted_insertionSort entryKeyLE es
    | error e =>
      rw [hc] at hl
      cases hl
  · simp only [oldest_job]
    rw [h12]
    rfl
  · simp only [oldest_job]
    rw [h21]
    rfl

/-- Closed witness for `list_jobs_fifo_order` at two concrete jobs with
ISO-style timestamps. -/
theorem list_jobs_fifo_order_witness :
    oldest_job (write_job (write_job []
        { input := "/i/a.ts", output := "/o/a.mp4",
          created_at := "2025-01-01T00:00:00+00:00" } "n1").2
      { input := "/i/b.ts", output := "/o/b.mp4",
        created_at := "2025-01-02T00:00:00+00:00" } "n2").2 =
      .ok (some ⟨"20250101T000000+0000_a.json",
        { input := "/i/a.ts", output := "/o/a.mp4",
          created_at := "2025-01-01T00:00:00+00:00" }⟩) := by
  have h := (list_jobs_fifo_order
    { input := "/i/a.ts", output := "/o/a.mp4",
      created_at := "2025-01-01T00:00:00+00:00" }
    { input := "/i/b.ts", output := "/o/b.mp4",
      created_at := "2025-01-02T00:00:00+00:00" } "n1" "n2"
    (by decide) (by decide) (by decide) (by decide) (by decide) (by decide)
    (by decide) (by decide) (by decide) (by decide)).2.2.2.1
  exact h.trans (by decide)

/-! ## PerUserLock (`locks.py`)

One lock file per username under `/tmp/twitch-active-users`; only the current
`flock` hold state is authoritative.  `holder` is `some pid` when some open
file description of process `pid` holds the exclusive lock. -/

/-- The `flock` state of one user's `<user>.lock` file. -/
structure UserLockState where
  holder : Option Int
deriving Repr, DecidableEq

/-- `PerUserLock.acquire` with its default `fail_fast=True`: a non-blocking
exclusive `flock` attempt.  If someone holds the lock, `BlockingIOError` is
caught, the descriptor is closed and `UserAlreadyRecording` is raised
(`none` outcome), leaving the hold state unchanged; otherwise the caller
becomes the holder (its `self._f` keeps the locked descriptor).  The
`fail_fast=False` branch blocks until the lock frees and is not modelled. -/
def perUserAcquire (st : UserLockState) (pid : Int) : Option Int × UserLockState :=
  match st.holder with
  | some _ => (none, st)
  | none => (some pid, { holder := some pid })

/-- C5: two `PerUserLock.acquire` calls for the same username with
`fail_fast=True` (any interleaving of two distinct callers is some sequential
order of the two `flock` attempts): the first succeeds and holds the lock,
the second raises `UserAlreadyRecording`, and the failed call leaves the
first caller's hold unchanged. -/
theorem peruser_lock_exclusive (st : UserLockState) (p q : Int)
    (h : st.holder = none) :
    (perUserAcquire st p).1 = some p ∧
    ((perUserAcquire st p).2).holder = some p ∧
    (perUserAcquire (perUserAcquire st p).2 q).1 = none ∧
    (perUserAcquire (perUserAcquire st p).2 q).2 = (perUserAcquire st p).2 := by
  cases st with
  | mk holder =>
    cases holder with
    | none => exact ⟨rfl, rfl, rfl, rfl⟩
    | some r => cases h

/-- Closed witness for `peruser_lock_exclusive`: pids 11 and 22 race for the
same username's lock. -/
theorem peruser_lock_exclusive_witness :
    (perUserAcquire ⟨none⟩ 11).1 = some 11 ∧
    ((perUserAcquire ⟨none⟩ 11).2).holder = some 11 ∧
    (perUserAcquire (perUserAcquire ⟨none⟩ 11).2 22).1 = none ∧
    (perUserAcquire (perUserAcquire ⟨none⟩ 11).2 22).2 = (perUserAcquire ⟨none⟩ 11).2 :=
  peruser_lock_exclusive ⟨none⟩ 11 22 rfl

/-! ## Encoder pause/resume backpressure (`encoder_daemon.py`, worker loop)

The monitor loop around a running ffmpeg worker polls
`gsm.active_count()` every cycle and keeps a `paused` flag:
`active > 0 and not paused` sends `SIGSTOP` and sets `paused`;
`active == 0 and paused` sends `SIGCONT` and clears it.  We model one poll
step and the fold over an arbitrary sequence of observed counts (the
worker-exit and `stopping` breaks merely truncate that sequence; `os.kill`
succeeding is assumed, as `ProcessLookupError` only suppresses a send). -/

/-- Signals sent to the ffmpeg worker process. -/
inductive Sig
  | stop
  | cont
deriving Repr, DecidableEq

/-- One iteration of the pause/resume logic: next `paused` flag and the
signal sent, if any. -/
def pauseStep (paused : Bool) (active : Nat) : Bool × Option Sig :=
  if 0 < active && !paused then (true, some .stop)
  else if active == 0 && paused then (false, some .cont)
  else (paused, none)

/-- The signals sent over a sequence of observed active-slot counts. -/
def pauseSignals (paused : Bool) : List Nat → List Sig
  | [] => []
  | a :: rest =>
    match (pauseStep paused a).2 with
    | some s => s :: pauseSignals (pauseStep paused a).1 rest
    | none => pauseSignals (pauseStep paused a).1 rest

/-- A signal list strictly alternates (no two adjacent signals equal). -/
def alternates : List Sig → Bool
  | [] => true
  | [_] => true
  | a :: b :: rest => (a != b) && alternates (b :: rest)

/-- Number of changes of a boolean sequence relative to a starting value. -/
def boolChanges (b : Bool) : List Bool → Nat
  | [] => 0
  | x :: rest => if x = b then boolChanges b rest else boolChanges x rest + 1

lemma pauseStep_fst (paused : Bool) (active : Nat) :
    (pauseStep paused active).1 = decide (0 < active) := by
  cases paused with
  | false =>
    by_cases h : 0 < active
    · simp [pauseStep, h]
    · simp [pauseStep, h, Nat.eq_zero_of_not_pos h]
  | true =>
    by_cases h : 0 < active
    · simp [pauseStep, h, Nat.pos_iff_ne_zero.mp h]
    · simp [pauseStep, h, Nat.eq_zero_of_not_pos h]

lemma pauseStep_snd (paused : Bool) (active : Nat) :
    (pauseStep paused active).2 =
      if decide (0 < active) = paused then none
      else some (if 0 < active then .stop else .cont) := by
  cases paused with
  | false =>
    by_cases h : 0 < active
    · simp [pauseStep, h]
    · simp [pauseStep, h, Nat.eq_zero_of_not_pos h]
  | true =>
    by_cases h : 0 < active
    · simp [pauseStep, h, Nat.pos_iff_ne_zero.mp h]
    · simp [pauseStep, h, Nat.eq_zero_of_not_pos h]

lemma pauseSignals_head (l : List Nat) (paused : Bool) :
    (pauseSignals paused l).head? = none ∨
    (pauseSignals paused l).head? = some (if paused then .cont else .stop) := by
  induction l generalizing paused with
  | nil => exact Or.inl rfl
  | cons a rest ih =>
    simp only [pauseSignals]
    rw [pauseStep_snd, pauseStep_fst]
    by_cases h : decide (0 < a) = paused
    · rw [if_pos h, h]
      exact ih paused
    · rw [if_neg h]
      cases paused with
      | false =>
        have ha : 0 < a := by
          by_contra hb
          exact h (by simp [hb])
        simp [ha]
      | true =>
        have ha : ¬ 0 < a := by
          by_contra hb
          exact h (by simp [hb])
        simp [ha]

lemma alternates_cons (s : Sig) (l : List Sig)
    (hhead : ∀ y, l.head? = some y → s ≠ y) (hl : alternates l = true) :
    alternates (s :: l) = true := by
  cases l with
  | nil => rfl
  | cons b rest =>
    have hb : s ≠ b := hhead b rfl
    simp only [alternates, Bool.and_eq_true, bne_iff_ne]
    exact ⟨hb, hl⟩

lemma pauseSignals_alternates (l : List Nat) (paused : Bool) :
    alternates (pauseSignals paused l) = true := by
  induction l generalizing paused with
  | nil => rfl
  | cons a rest ih =>
    simp only [pauseSignals]
    rw [pauseStep_snd, pauseStep_fst]
    by_cases h : decide (0 < a) = paused
    · rw [if_pos h, h]
      exact ih paused
    · rw [if_neg h]
      apply alternates_cons
      · intro y hy
        rcases pauseSignals_head rest (decide (0 < a)) with hh | hh
        · rw [hy] at hh; cases hh
        · rw [hy] at hh
          have hy2 := Option.some.inj hh
          subst hy2
          by_cases ha : 0 < a
          · simp [ha]
          · simp [ha]
      · exact ih (decide (0 < a))

lemma pauseSignals_length (l : List Nat) (paused : Bool) :
    (pauseSignals paused l).length =
      boolChanges paused (l.map (fun a => decide (0 < a))) := by
  induction l generalizing paused with
  | nil => rfl
  | cons a rest ih =>
    simp only [pauseSignals, List.map_cons, boolChanges]
    rw [pauseStep_snd, pauseStep_fst]
    by_cases h : decide (0 < a) = paused
    · rw [if_pos h, if_pos h, h]
      exact ih paused
    · rw [if_neg h, if_neg h]
      simp only [List.length_cons]
      rw [ih (decide (0 < a))]

/-- C4: over any sequence of observed active-slot counts, starting unpaused,
the pause/resume logic (a) sends a signal exactly at the transitions of the
"some download active" boolean (one signal per 0↔positive transition, none
while the state is unchanged), (b) never repeats a signal while the
paused/unpaused state is unchanged — the sent signals strictly alternate —
and (c) the first signal sent, if any, is the suspend signal. -/
theorem encode_pause_resume_alternation (counts : List Nat) :
    alternates (pauseSignals false counts) = true ∧
    (pauseSignals false counts).length =
      boolChanges false (counts.map (fun a => decide (0 < a))) ∧
    ((pauseSignals false counts).head? = none ∨
     (pauseSignals false counts).head? = some .stop) :=
  ⟨pauseSignals_alternates counts false, pauseSignals_length counts false,
   pauseSignals_head counts false⟩

/-! ## Daemon runtime state (`encoder_daemon.py` / `poller.py`)

`encoder_runtime_state` and `poller_runtime_state` merge a pid registration
file with a status record.  A missing, unreadable or empty (falsy) JSON file
is `none`; otherwise the relevant keys are optional fields.  Python
truthiness: `None` and `0` are falsy for pids, `None` and `""` for
timestamps.  The stale-pid-file unlink side effects do not influence the
returned state and are not modelled. -/

/-- Copy a status value over a state field when the status key is present
(`if status.get(key) is not None`). -/
def updIfSome {α : Type} (new old : Option α) : Option α :=
  match new with
  | some v => some v
  | none => old

/-- Python truthiness of an optional integer (`None` and `0` are falsy). -/
def truthyIntOpt : Option Int → Bool
  | some p => p != 0
  | none => false

/-- Python truthiness of an optional string (`None` and `""` are falsy). -/
def truthyStrOpt : Option String → Bool
  | some s => s != ""
  | none => false

/-- Parsed `encoder.pid` registration (`{"pid": .., "started_at": ..}`). -/
structure EncPidRec where
  pid : Option Int
  started_at : Option String
deriving Repr, DecidableEq

/-- Parsed `encoder_status.json` keys read by `encoder_runtime_state`. -/
structure EncStatusRec where
  pid : Option Int
  current_job : Option String
  last_job : Option String
  started_at : Option String
deriving Repr, DecidableEq

/-- The state dict returned by `encoder_runtime_state`. -/
structure EncState where
  running : Bool
  pid : Option Int
  started_at : Option String
  current_job : Option String
  last_job : Option String
deriving Repr, DecidableEq

/-- Lines 184-199 of `encoder_daemon.py`: seed the state from the pid
registration; a pid that is missing, non-positive or dead leaves the default
not-running state (and merely triggers `clear_encoder_pid`). -/
def encStateFromPid (aliveEnv : Int → Bool) (pidFile : Option EncPidRec) : EncState :=
  let s0 : EncState := ⟨false, none, none, none, none⟩
  match pidFile with
  | none => s0
  | some info =>
    let pid := match info.pid with | some p => p | none => -1
    if pid > 0 && is_process_alive aliveEnv pid then
      { s0 with running := true, pid := some pid, started_at := info.started_at }
    else s0

/-- Lines 200-209: overlay status fields and, when the state has no pid yet
but the status names a live one, adopt it. -/
def encApplyStatus (aliveEnv : Int → Bool) (status : Option EncStatusRec)
    (s : EncState) : EncState :=
  match status with
  | none => s
  | some st =>
    let sA := { s with
      current_job := updIfSome st.current_job s.current_job,
      last_job := updIfSome st.last_job s.last_job,
      started_at := updIfSome st.started_at s.started_at }
    if truthyIntOpt st.pid && !truthyIntOpt sA.pid then
      let p := match st.pid with | some v => v | none => -1
      if p > 0 && is_process_alive aliveEnv p then
        { sA with running := true, pid := some p }
      else sA
    else sA

/-- Lines 210-211: a recorded pid that is not alive forces `running = False`
whatever the earlier merging concluded. -/
def encFinalLiveCheck (aliveEnv : Int → Bool) (s : EncState) : EncState :=
  match s.pid with
  | some p =>
    if p != 0 && !is_process_alive aliveEnv p then { s with running := false } else s
  | none => s

/-- `encoder_daemon.encoder_runtime_state`, as a function of the two files'
parsed contents and the pid-liveness oracle. -/
def encoder_runtime_state (aliveEnv : Int → Bool) (pidFile : Option EncPidRec)
    (status : Option EncStatusRec) : EncState :=
  encFinalLiveCheck aliveEnv (encApplyStatus aliveEnv status (encStateFromPid aliveEnv pidFile))

/-- Parsed `poller.pid` registration
(`{"pid": .., "started_at": .., "interval": ..}`). -/
structure PollPidRec where
  pid : Option Int
  started_at : Option String
  interval : Option Int
deriving Repr, DecidableEq

/-- Parsed `poller_status.json` keys read by `poller_runtime_state`. -/
structure PollStatusRec where
  running : Option Bool
  pid : Option Int
  last_poll_ts : Option String
  next_poll_ts : Option String
  interval : Option Int
  started_at : Option String
deriving Repr, DecidableEq

/-- The state dict returned by `poller_runtime_state`. -/
structure PollState where
  running : Bool
  pid : Option Int
  started_at : Option String
  last_poll_ts : Option String
  next_poll_ts : Option String
  interval : Option Int
deriving Repr, DecidableEq

/-- Lines 127-136 of `poller.py`: seed the state from the pid registration. -/
def pollStateFromPid (aliveEnv : Int → Bool) (pidFile : Option PollPidRec) : PollState :=
  let s0 : PollState := ⟨false, none, none, none, none, none⟩
  match pidFile with
  | none => s0
  | some info =>
    let pid := match info.pid with | some p => p | none => -1
    if pid > 0 && is_process_alive aliveEnv pid then
      { s0 with
          running := true
          pid := some pid
          started_at := info.started_at
          interval := info.interval }
    else s0

/-- Lines 137-148: overlay status fields; `status["running"] is False` forces
not-running only when no live registration pid was found; a truthy status pid
is adopted when live and no pid is known yet. -/
def pollApplyStatus (aliveEnv : Int → Bool) (status : Option PollStatusRec)
    (s : PollState) : PollState :=
  match status with
  | none => s
  | some st =>
    let sA := { s with
      last_poll_ts := updIfSome st.last_poll_ts s.last_poll_ts,
      next_poll_ts := updIfSome st.next_poll_ts s.next_poll_ts,
      interval := updIfSome st.interval s.interval,
      started_at := updIfSome st.started_at s.started_at }
    let sB := if st.running = some false then
        { sA with running := if truthyIntOpt sA.pid then sA.running else false }
      else sA
    if truthyIntOpt st.pid && !truthyIntOpt sB.pid then
      let p := match st.pid with | some v => v | none => -1
      if p > 0 && is_process_alive aliveEnv p then
        { sB with running := true, pid := some p }
      else sB
    else sB

/-- Lines 149-155: derive `next_poll_ts` from `last_poll_ts + interval` when
missing; `parseAdd` stands for `datetime.fromisoformat` plus the timedelta
(`none` models the swallowed exception). -/
def pollDeriveNext (parseAdd : String → Int → Option String) (s : PollState) : PollState :=
  if !truthyStrOpt s.next_poll_ts && truthyStrOpt s.last_poll_ts &&
      truthyIntOpt s.interval then
    match s.last_poll_ts, s.interval with
    | some lastTs, some itv =>
      match parseAdd lastTs itv with
      | some nextTs => { s with next_poll_ts := some nextTs }
      | none => s
    | _, _ => s
  else s

/-- Lines 156-157: the final dead-pid override. -/
def pollFinalLiveCheck (aliveEnv : Int → Bool) (s : PollState) : PollState :=
  match s.pid with
  | some p =>
    if p != 0 && !is_process_alive aliveEnv p then { s with running := false } else s
  | none => s

/-- `poller.poller_runtime_state`, as a function of the two files' parsed
contents, the pid-liveness oracle and the datetime arithmetic. -/
def poller_runtime_state (aliveEnv : Int → Bool) (parseAdd : String → Int → Option String)
    (pidFile : Option PollPidRec) (status : Option PollStatusRec) : PollState :=
  pollFinalLiveCheck aliveEnv
    (pollDeriveNext parseAdd (pollApplyStatus aliveEnv status (pollStateFromPid aliveEnv pidFile)))

/-- Every pid recorded in the encoder's registration and status files. -/
def encoderPids (pidFile : Option EncPidRec) (status : Option EncStatusRec) : List Int :=
  (match pidFile with | some i => i.pid.toList | none => []) ++
  (match status with | some s => s.pid.toList | none => [])

/-- Every pid recorded in the poller's registration and status files. -/
def pollerPids (pidFile : Option PollPidRec) (status : Option PollStatusRec) : List Int :=
  (match pidFile with | some i => i.pid.toList | none => []) ++
  (match status with | some s => s.pid.toList | none => [])

lemma encStateFromPid_dead (aliveEnv : Int → Bool) (pidFile : Option EncPidRec)
    (h : ∀ info p, pidFile = some info → info.pid = some p →
      is_process_alive aliveEnv p = false) :
    encStateFromPid aliveEnv pidFile = ⟨false, none, none, none, none⟩ := by
  cases pidFile with
  | none => rfl
  | some info =>
    cases hp : info.pid with
    | none =>
      simp only [encStateFromPid, hp]
      norm_num
    | some p =>
      have hd := h info p rfl hp
      simp only [encStateFromPid, hp, hd]
      simp

lemma encApplyStatus_dead (aliveEnv : Int → Bool) (status : Option EncStatusRec)
    (s : EncState) (hr : s.running = false) (hp : s.pid = none)
    (h : ∀ st p, status = some st → st.pid = some p →
      is_process_alive aliveEnv p = false) :
    (encApplyStatus aliveEnv status s).running = false ∧
    (encApplyStatus aliveEnv status s).pid = none := by
  obtain ⟨sr, sp, ss, sc, sl⟩ := s
  simp only [EncState.running] at hr
  simp only [EncState.pid] at hp
  subst hr
  subst hp
  cases status with
  | none => exact ⟨rfl, rfl⟩
  | some st =>
    cases hq : st.pid with
    | none => simp [encApplyStatus, hq, truthyIntOpt]
    | some p =>
      have hd := h st p rfl hq
      by_cases hz : p = 0
      · subst hz
        simp [encApplyStatus, hq, truthyIntOpt]
      · simp [encApplyStatus, hq, truthyIntOpt, hz, hd]

lemma encFinalLiveCheck_running (aliveEnv : Int → Bool) (s : EncState)
    (h : s.running = false) : (encFinalLiveCheck aliveEnv s).running = false := by
  cases hp : s.pid with
  | none =>
    simp only [encFinalLiveCheck, hp]
    exact h
  | some p =>
    simp only [encFinalLiveCheck, hp]
    by_cases hc : (p != 0 && !is_process_alive aliveEnv p) = true
    · rw [if_pos hc]
    · rw [if_neg hc]
      exact h

lemma pollStateFromPid_dead (aliveEnv : Int → Bool) (pidFile : Option PollPidRec)
    (h : ∀ info p, pidFile = some info → info.pid = some p →
      is_process_alive aliveEnv p = false) :
    pollStateFromPid aliveEnv pidFile = ⟨false, none, none, none, none, none⟩ := by
  cases pidFile with
  | none => rfl
  | some info =>
    cases hp : info.pid with
    | none =>
      simp only [pollStateFromPid, hp]
      norm_num
    | some p =>
      have hd := h info p rfl hp
      simp only [pollStateFromPid, hp, hd]
      simp

lemma pollApplyStatus_dead (aliveEnv : Int → Bool) (status : Option PollStatusRec)
    (s : PollState) (hr : s.running = false) (hp : s.pid = none)
    (h : ∀ st p, status = some st → st.pid = some p →
      is_process_alive aliveEnv p = false) :
    (pollApplyStatus aliveEnv status s).running = false ∧
    (pollApplyStatus aliveEnv status s).pid = none := by
  obtain ⟨sr, sp, ss, sl, sn, si⟩ := s
  simp only [PollState.running] at hr
  simp only [PollState.pid] at hp
  subst hr
  subst hp
  cases status with
  | none => exact ⟨rfl, rfl⟩
  | some st =>
    cases hq : st.pid with
    | none =>
      by_cases hrun : st.running = some false
      · simp [pollApplyStatus, hq, truthyIntOpt, hrun]
      · simp [pollApplyStatus, hq, truthyIntOpt, hrun]
    | some p =>
      have hd := h st p rfl hq
      by_cases hz : p = 0
      · subst hz
        by_cases hrun : st.running = some false
        · simp [pollApplyStatus, hq, truthyIntOpt, hrun]
        · simp [pollApplyStatus, hq, truthyIntOpt, hrun]
      · by_cases hrun : st.running = some false
        · simp [pollApplyStatus, hq, truthyIntOpt, hz, hd, hrun]
        · simp [pollApplyStatus, hq, truthyIntOpt, hz, hd, hrun]

lemma pollDeriveNext_running (parseAdd : String → Int → Option String) (s : PollState) :
    (pollDeriveNext parseAdd s).running = s.running ∧
    (pollDeriveNext parseAdd s).pid = s.pid := by
  simp only [pollDeriveNext]
  split
  · split
    · split
      · exact ⟨rfl, rfl⟩
      · exact ⟨rfl, rfl⟩
    · exact ⟨rfl, rfl⟩
  · exact ⟨rfl, rfl⟩

lemma pollFinalLiveCheck_running (aliveEnv : Int → Bool) (s : PollState)
    (h : s.running = false) : (pollFinalLiveCheck aliveEnv s).running = false := by
  cases hp : s.pid with
  | none =>
    simp only [pollFinalLiveCheck, hp]
    exact h
  | some p =>
    simp only [pollFinalLiveCheck, hp]
    by_cases hc : (p != 0 && !is_process_alive aliveEnv p) = true
    · rw [if_pos hc]
    · rw [if_neg hc]
      exact h

/-- C8: `encoder_runtime_state` and `poller_runtime_state` report
`running = True` only on the evidence of a live recorded pid: whenever every
pid found in the registration and status records is dead (or absent, so that
no pid is recorded at all), the returned state has `running = False`,
regardless of what the status record claims. -/
theorem runtime_state_dead_pid_not_running (aliveEnv : Int → Bool)
    (parseAdd : String → Int → Option String)
    (encPid : Option EncPidRec) (encStatus : Option EncStatusRec)
    (polPid : Option PollPidRec) (polStatus : Option PollStatusRec)
    (hEnc : ∀ p ∈ encoderPids encPid encStatus, is_process_alive aliveEnv p = false)
    (hPol : ∀ p ∈ pollerPids polPid polStatus, is_process_alive aliveEnv p = false) :
    (encoder_runtime_state aliveEnv encPid encStatus).running = false ∧
    (poller_runtime_state aliveEnv parseAdd polPid polStatus).running = false := by
  constructor
  · have hA : encStateFromPid aliveEnv encPid = ⟨false, none, none, none, none⟩ := by
      apply encStateFromPid_dead
      intro info p hinfo hp
      apply hEnc
      simp [encoderPids, hinfo, hp]
    have hB := encApplyStatus_dead aliveEnv encStatus (encStateFromPid aliveEnv encPid)
      (by rw [hA]) (by rw [hA])
      (by
        intro st p hst hp
        apply hEnc
        simp [encoderPids, hst, hp])
    exact encFinalLiveCheck_running aliveEnv _ hB.1
  · have hA : pollStateFromPid aliveEnv polPid = ⟨false, none, none, none, none, none⟩ := by
      apply pollStateFromPid_dead
      intro info p hinfo hp
      apply hPol
      simp [pollerPids, hinfo, hp]
    have hB := pollApplyStatus_dead aliveEnv polStatus (pollStateFromPid aliveEnv polPid)
      (by rw [hA]) (by rw [hA])
      (by
        intro st p hst hp
        apply hPol
        simp [pollerPids, hst, hp])
    have hC := pollDeriveNext_running parseAdd
      (pollApplyStatus aliveEnv polStatus (pollStateFromPid aliveEnv polPid))
    apply pollFinalLiveCheck_running
    rw [hC.1, hB.1]

/-- Closed witness for `runtime_state_dead_pid_not_running`: both daemons'
files record pid 4242, every pid is dead, and both states report not
running even though both status records claim otherwise. -/
theorem runtime_state_dead_pid_not_running_witness :
    (encoder_runtime_state (fun _ => false)
        (some ⟨some 4242, some "s"⟩) (some ⟨some 4242, some "job", none, none⟩)).running =
      false ∧
    (poller_runtime_state (fun _ => false) (fun _ _ => none)
        (some ⟨some 4242, some "s", some 300⟩)
        (some ⟨some true, some 4242, some "lp", none, some 300, some "s"⟩)).running =
      false :=
  runtime_state_dead_pid_not_running (fun _ => false) (fun _ _ => none)
    (some ⟨some 4242, some "s"⟩) (some ⟨some 4242, some "job", none, none⟩)
    (some ⟨some 4242, some "s", some 300⟩)
    (some ⟨some true, some 4242, some "lp", none, some 300, some "s"⟩)
    (by decide) (by decide)

/-- Closed witness for `encode_pause_resume_alternation` on a concrete count
sequence with two transitions. -/
theorem encode_pause_resume_alternation_witness :
    alternates (pauseSignals false [0, 2, 3, 0, 0, 5]) = true ∧
    (pauseSignals false [0, 2, 3, 0, 0, 5]).length =
      boolChanges false (List.map (fun a => decide (0 < a)) [0, 2, 3, 0, 0, 5]) ∧
    ((pauseSignals false [0, 2, 3, 0, 0, 5]).head? = none ∨
     (pauseSignals false [0, 2, 3, 0, 0, 5]).head? = some .stop) :=
  encode_pause_resume_alternation [0, 2, 3, 0, 0, 5]

end Twitchtool
